import Mathlib

/-!
Verification of the resilient RPC layer and notification engine of the
avax-withdrawal-bot repository.  Each JavaScript function of
`src/services/provider.js`, `src/services/contract.js` and
`src/services/json-store.js` that the claims refer to is shallowly embedded
as an executable Lean definition; asynchronous effects (the RPC operation,
sleeps, rotations, cursor resets) are made explicit through an event trace.
-/

/-! ## Provider layer (`src/services/provider.js`) -/

/-- Outcome of one invocation of the supplied operation `fn(provider)`:
either a value or a thrown error carrying its message. -/
inductive AttemptOutcome (α : Type) where
  | success (v : α)
  | failure (msg : String)
deriving DecidableEq, Repr

/-- Observable events of one `executeWithRetry` execution: an invocation of
the operation on an endpoint (with the per-endpoint attempt index), a backoff
sleep performed while on an endpoint, a rotation to a new endpoint cursor, and
the reset of the cursor to the primary endpoint after a success. -/
inductive Event where
  | call (endpoint : Nat) (attempt : Nat)
  | sleep (endpoint : Nat) (ms : Nat)
  | rotate (target : Nat)
  | reset
deriving DecidableEq, Repr

/-- Result of `executeWithRetry`: the returned value, or the aggregate error
thrown after all providers failed.  The thrown JavaScript `Error` message is
`"<op> failed after trying all <providers> providers: <lastErr>"`; its
variable content is the provider count and the last observed error message
(`none` models the `'Unknown error'` fallback for a null `lastError`). -/
inductive RetryResult (α : Type) where
  | ok (v : α)
  | exhausted (providers : Nat) (lastErr : Option String)
deriving DecidableEq, Repr

/-- Predicate `leadsWith p s` holds when the character list `p` starts the list `s`
(model of anchored substring matching at the head). -/
def leadsWith : List Char → List Char → Bool
  | [], _ => true
  | _ :: _, [] => false
  | a :: ps, b :: ss => a == b && leadsWith ps ss

/-- Function `containsChars p s` models JavaScript `s.includes(p)` on character
lists. -/
def containsChars (p : List Char) : List Char → Bool
  | [] => leadsWith p []
  | b :: ss => leadsWith p (b :: ss) || containsChars p ss

/-- The non-retryable error message patterns of
`ResilientProvider.isNonRetryableError`. -/
def nonRetryablePatterns : List String :=
  ["invalid address", "invalid argument", "missing argument",
   "invalid parameters", "execution reverted", "call exception"]

/-- JavaScript `message.toLowerCase()`, as the character list of the message
mapped through `Char.toLower`. -/
def lowerChars (s : String) : List Char :=
  s.data.map Char.toLower

/-- Model of `ResilientProvider.isNonRetryableError`: lower-case the message and test
whether it includes one of the non-retryable patterns. -/
def isNonRetryableError (msg : String) : Bool :=
  nonRetryablePatterns.any fun pat => containsChars pat.data (lowerChars msg)

/-- Model of `ResilientProvider.switchToNextProvider`: cyclic advance of the provider
cursor. -/
def switchToNextProvider (cursor n : Nat) : Nat :=
  (cursor + 1) % n

/-- Inner retry loop of `executeWithRetry` (`for attempt in 0..maxRetries`)
on the endpoint `e`.  `left` is the number of remaining iterations, `a` the
current attempt index, `d` the current backoff delay and `le` the running
`lastError`.  Returns the final delay, final `lastError`, the events of this
round, and the successful value if any.  The operation is modelled as
`fn : endpoint → attempt → AttemptOutcome α`. -/
def attemptLoop (fn : Nat → Nat → AttemptOutcome α) (M mx e : Nat) :
    Nat → Nat → Nat → Option String → Nat × Option String × List Event × Option α
  | 0, _, d, le => (d, le, [], none)
  | left + 1, a, d, le =>
    match fn e a with
    | .success v => (d, le, [.call e a], some v)
    | .failure msg =>
      if isNonRetryableError msg then
        (d, some msg, [.call e a], none)
      else if a < M - 1 then
        let r := attemptLoop fn M mx e left (a + 1) (min (d * 2) mx) (some msg)
        (r.1, r.2.1, .call e a :: .sleep e d :: r.2.2.1, r.2.2.2)
      else
        let r := attemptLoop fn M mx e left (a + 1) d (some msg)
        (r.1, r.2.1, .call e a :: r.2.2.1, r.2.2.2)

/-- Outer provider loop of `executeWithRetry`
(`for providerAttempt in 0..providers.length`).  `r` is the number of
remaining provider rounds, `c` the current cursor, `d` the current delay and
`le` the running `lastError`.  Returns the final cursor, final `lastError`,
the events, and the successful value if any.  On success with a non-primary
cursor the cursor is reset to 0; on failure with rounds remaining the cursor
rotates cyclically and the delay resets to the base delay `b`. -/
def providerLoop (fn : Nat → Nat → AttemptOutcome α) (n M b mx : Nat) :
    Nat → Nat → Nat → Option String → Nat × Option String × List Event × Option α
  | 0, c, _, le => (c, le, [], none)
  | r + 1, c, d, le =>
    let t := attemptLoop fn M mx c M 0 d le
    match t.2.2.2 with
    | some v =>
      if c ≠ 0 then (0, t.2.1, t.2.2.1 ++ [.reset], some v)
      else (c, t.2.1, t.2.2.1, some v)
    | none =>
      if r > 0 then
        let c' := switchToNextProvider c n
        let rest := providerLoop fn n M b mx r c' b t.2.1
        (rest.1, rest.2.1, t.2.2.1 ++ .rotate c' :: rest.2.2.1, rest.2.2.2)
      else
        (c, t.2.1, t.2.2.1, none)

/-- Model of `ResilientProvider.executeWithRetry` for a pool of `n` providers,
`maxRetries = M`, `retryDelay = b`, `maxRetryDelay = mx`, starting with
provider cursor `c0`.  Returns the final cursor, the event trace, and the
result (value or aggregate error). -/
def executeWithRetry (fn : Nat → Nat → AttemptOutcome α) (n M b mx c0 : Nat) :
    Nat × List Event × RetryResult α :=
  let t := providerLoop fn n M b mx n c0 b none
  match t.2.2.2 with
  | some v => (t.1, t.2.2.1, .ok v)
  | none => (t.1, t.2.2.1, .exhausted n t.2.1)

/-- Number of operation invocations recorded in a trace. -/
def countCalls (tr : List Event) : Nat :=
  tr.countP fun ev => match ev with | .call _ _ => true | _ => false

/-- Number of cursor resets recorded in a trace. -/
def resetCount (tr : List Event) : Nat :=
  tr.countP fun ev => match ev with | .reset => true | _ => false

/-- The backoff sleeps performed on endpoint `e`, in order. -/
def sleepsOn (e : Nat) (tr : List Event) : List Nat :=
  tr.filterMap fun ev => match ev with
    | .sleep e' ms => if e' = e then some ms else none
    | _ => none

/-- Number of operation invocations on endpoint `e`. -/
def callsOn (e : Nat) (tr : List Event) : Nat :=
  tr.countP fun ev => match ev with | .call e' _ => e' == e | _ => false

/-- Endpoint of a `call` event. -/
def callEndpoint : Event → Option Nat
  | .call e _ => some e
  | _ => none

/-- Endpoint of the last operation invocation of a trace. -/
def lastCallE (tr : List Event) : Option Nat :=
  tr.reverse.findSome? callEndpoint

/-! ## Ledger query layer (`src/services/contract.js`)

The resilient client call underlying each `ContractService` method is
abstracted as its outcome, an `Except String β`: `.error` is the aggregate
exhaustion error thrown by `executeWithRetry`, `.ok` the decoded value. -/

/-- Constant `ethers.ZeroAddress`, the sentinel requester of a claimed request. -/
def ZeroAddress : String := "0x0000000000000000000000000000000000000000"

/-- The raw tuple returned by the on-chain `getRequestInfo` call. -/
structure RawRequestInfo where
  requester : String
  shares : Nat
  expectedAssets : Nat
  requestTime : Nat
  claimableTime : Nat
  expirationTime : Nat
  allocatedFunds : Nat
deriving DecidableEq, Repr

/-- The record built by `ContractService.getRequestInfo` (big-number fields
stringified, time fields numeric). -/
structure RequestInfo where
  requester : String
  shares : String
  expectedAssets : String
  requestTime : Nat
  claimableTime : Nat
  expirationTime : Nat
  allocatedFunds : String
deriving DecidableEq, Repr

/-- Model of `ContractService.getRequestsByOwner`: stringify the returned ids; on any
thrown error return the empty list. -/
def getRequestsByOwner (call : Except String (List Nat)) : List String :=
  match call with
  | .ok requestIds => requestIds.map toString
  | .error _ => []

/-- Model of `ContractService.canClaimRequest`: return the claimability flag; on any
thrown error return `false`. -/
def canClaimRequest (call : Except String Bool) : Bool :=
  match call with
  | .ok b => b
  | .error _ => false

/-- Model of `ContractService.getRequestInfo`: destructure the tuple into the result
record; on any thrown error return `null`. -/
def getRequestInfo (call : Except String RawRequestInfo) : Option RequestInfo :=
  match call with
  | .ok r =>
    some { requester := r.requester
           shares := toString r.shares
           expectedAssets := toString r.expectedAssets
           requestTime := r.requestTime
           claimableTime := r.claimableTime
           expirationTime := r.expirationTime
           allocatedFunds := toString r.allocatedFunds }
  | .error _ => none

/-- Model of `ContractService.isRequestInactive`: a `null` info means inactive; else
inactive exactly when the requester is the zero address. -/
def isRequestInactive (call : Except String RawRequestInfo) : Bool :=
  match getRequestInfo call with
  | none => true
  | some info => info.requester == ZeroAddress

/-! ## Persistent store (`src/services/json-store.js`)

The JSON object maps are embedded as association lists; `Date.now()` is an
explicit `now : Nat` argument (milliseconds). -/

/-- One entry of `data.subscriptions`. -/
structure Subscription where
  walletAddress : String
  frequencySeconds : Nat
  active : Bool
  createdAt : Nat
  updatedAt : Nat
deriving DecidableEq, Repr

/-- One entry of `data.notificationHistory`. -/
structure NotifRecord where
  firstNotifiedAt : Nat
  lastNotifiedAt : Nat
deriving DecidableEq, Repr

/-- One entry of `data.completionStatus`. -/
structure CompletionStatus where
  completionSent : Bool
  lastRequestCount : Nat
  updatedAt : Nat
deriving DecidableEq, Repr

/-- The persisted store object (`this.data`). -/
structure StoreData where
  subscriptions : List (Nat × Subscription)
  notificationHistory : List (String × NotifRecord)
  completionStatus : List (Nat × CompletionStatus)
deriving DecidableEq, Repr

/-- JavaScript object assignment `obj[k] = v`: replace the value of an
existing key in place, or append the new key at the end. -/
def updAssoc [BEq κ] (k : κ) (v : ν) : List (κ × ν) → List (κ × ν)
  | [] => [(k, v)]
  | (k', v') :: rest =>
    if k' == k then (k, v) :: rest else (k', v') :: updAssoc k v rest

/-- The notification-history key `` `${chatId}:${requestId}` ``. -/
def historyKey (chatId : Nat) (requestId : String) : String :=
  toString chatId ++ ":" ++ requestId

/-- Model of `JsonStore.shouldNotify`: `false` for an unsubscribed chat; `true` when
no history record exists; otherwise `true` iff the time since the last
notification is at least the chat's frequency (in milliseconds). -/
def shouldNotify (d : StoreData) (now chatId : Nat) (requestId : String) : Bool :=
  match d.subscriptions.lookup chatId with
  | none => false
  | some sub =>
    match d.notificationHistory.lookup (historyKey chatId requestId) with
    | none => true
    | some history =>
      decide (sub.frequencySeconds * 1000 ≤ now - history.lastNotifiedAt)

/-- Model of `JsonStore.recordNotification`: update `lastNotifiedAt` of an existing
record, or create a fresh record with both timestamps at `now`. -/
def recordNotification (d : StoreData) (now chatId : Nat) (requestId : String) :
    StoreData :=
  let k := historyKey chatId requestId
  match d.notificationHistory.lookup k with
  | some existing =>
    { d with notificationHistory :=
        updAssoc k { existing with lastNotifiedAt := now } d.notificationHistory }
  | none =>
    { d with notificationHistory :=
        updAssoc k ⟨now, now⟩ d.notificationHistory }

/-- Model of `JsonStore.cleanupInactiveRequests`: drop every history entry of this
chat whose request id is not among the active ids. -/
def cleanupInactiveRequests (d : StoreData) (chatId : Nat)
    (activeRequestIds : List String) : StoreData :=
  let pre := toString chatId ++ ":"
  { d with notificationHistory := d.notificationHistory.filter fun kv =>
      !(pre.isPrefixOf kv.1 && !activeRequestIds.contains (kv.1.drop pre.length)) }

/-- Model of `JsonStore.shouldSendCompletion`: returns the updated store and the
decision.  A missing status, or a zero-to-positive transition of the tracked
count, re-initialises the status and answers `requestCount == 0`; a zero
count with the completion flag still clear answers `true` with no state
change; otherwise the tracked count is brought up to date (clearing the flag
again on a positive count) and the answer is `false`. -/
def shouldSendCompletion (d : StoreData) (now chatId requestCount : Nat) :
    StoreData × Bool :=
  match d.completionStatus.lookup chatId with
  | none =>
    ({ d with completionStatus :=
        updAssoc chatId ⟨false, requestCount, now⟩ d.completionStatus },
     requestCount == 0)
  | some status =>
    if status.lastRequestCount == 0 && requestCount > 0 then
      ({ d with completionStatus :=
          updAssoc chatId ⟨false, requestCount, now⟩ d.completionStatus },
       requestCount == 0)
    else if requestCount == 0 && !status.completionSent then
      (d, true)
    else if status.lastRequestCount != requestCount then
      let status' : CompletionStatus :=
        { status with
            lastRequestCount := requestCount
            updatedAt := now
            completionSent :=
              if requestCount > 0 then false else status.completionSent }
      ({ d with completionStatus := updAssoc chatId status' d.completionStatus },
       false)
    else (d, false)

/-- Model of `JsonStore.markCompletionSent`: set the completion flag (creating a
default status with `lastRequestCount = 0` when missing). -/
def markCompletionSent (d : StoreData) (now chatId : Nat) : StoreData :=
  match d.completionStatus.lookup chatId with
  | none =>
    { d with completionStatus := updAssoc chatId ⟨true, 0, now⟩ d.completionStatus }
  | some status =>
    let status' : CompletionStatus :=
      { status with completionSent := true, updatedAt := now }
    { d with completionStatus := updAssoc chatId status' d.completionStatus }

/-- One poll cycle of the completion pathway for one chat, as driven by
`PollerService`: `checkWallet` calls `shouldSendCompletion` with the active
count, and `handleAllRequestsInactive` additionally calls
`markCompletionSent` whenever the decision is `true`. -/
def completionCycle (d : StoreData) (now chatId count : Nat) : StoreData × Bool :=
  let t := shouldSendCompletion d now chatId count
  if t.2 then (markCompletionSent t.1 now chatId, t.2) else (t.1, t.2)

/-- Feed a sequence of per-cycle active counts through the completion
pathway, collecting the per-cycle decisions. -/
def runCompletionCycles (now chatId : Nat) :
    StoreData → List Nat → StoreData × List Bool
  | d, [] => (d, [])
  | d, count :: rest =>
    let t := completionCycle d now chatId count
    let u := runCompletionCycles now chatId t.1 rest
    (u.1, t.2 :: u.2)

/-! ## Poll scheduler (`PollerService`) -/

/-- Model of `PollerService.calculateDelayToNextAlignedTime` for a wall-clock time of
`minute:second.ms` within the hour (`Math.ceil(minute / 15) * 15` is ceiling
division on the 0..59 minute value).  The result is an integer number of
milliseconds and may be negative. -/
def calculateDelayToNextAlignedTime (minute second ms : Nat) : Int :=
  let nextAlignedMinute := ((minute + 14) / 15) * 15
  let minutesUntilNext := (nextAlignedMinute - minute) % 60
  (minutesUntilNext * 60 * 1000 : Int) - (second * 1000 : Int) - (ms : Int)

/-- Model of `JsonStore.getChatsForWallet`: the chat ids of active subscriptions whose
wallet equals the queried wallet lower-cased. -/
def getChatsForWallet (d : StoreData) (walletAddress : String) : List Nat :=
  d.subscriptions.filterMap fun kv =>
    if kv.2.active && kv.2.walletAddress.data == lowerChars walletAddress
    then some kv.1 else none

/-- The Markdown message body built by `PollerService.sendNotification`. -/
def buildMessage (walletAddress : String) (requestIds : List String) : String :=
  let shortAddress :=
    walletAddress.take 6 ++ "..." ++ ⟨(walletAddress.data.reverse.take 4).reverse⟩
  "🎉 *Withdrawal Ready*\n\n" ++ "`" ++ shortAddress ++ "`\n\n" ++
    String.join (requestIds.map fun id => "• Request #" ++ id ++ "\n") ++
    "\nReady to claim on Avalanche C-Chain"

/-- Model of `PollerService.sendNotification`: attempt delivery through the messaging
collaborator `deliver`; a thrown delivery error is caught and logged, never
rethrown.  The returned value is the logged error message, `none` on
successful delivery. -/
def sendNotification (deliver : Nat → String → Except String Unit)
    (chatId : Nat) (walletAddress : String) (requestIds : List String) :
    Option String :=
  match deliver chatId (buildMessage walletAddress requestIds) with
  | .ok _ => none
  | .error e => some e

/-- Model of `PollerService.notifyChatsForWallet`: for each chat subscribed to the
wallet, prune stale history, filter the claimable ids that are due per
`shouldNotify`, and if any remain send one batched notification and then
record each id as notified.  Returns the final store and, in order, the
outcome log of every `sendNotification` performed. -/
def notifyChatsForWallet (deliver : Nat → String → Except String Unit)
    (d : StoreData) (now : Nat) (walletAddress : String)
    (claimableRequestIds activeRequestIds : List String) :
    StoreData × List (Option String) :=
  (getChatsForWallet d walletAddress).foldl
    (fun acc chatId =>
      let d1 := cleanupInactiveRequests acc.1 chatId activeRequestIds
      let requestsToNotify := claimableRequestIds.filter fun requestId =>
        shouldNotify d1 now chatId requestId
      if requestsToNotify.isEmpty then (d1, acc.2)
      else
        let sent := sendNotification deliver chatId walletAddress requestsToNotify
        let d2 := requestsToNotify.foldl
          (fun dd requestId => recordNotification dd now chatId requestId) d1
        (d2, acc.2 ++ [sent]))
    (d, [])

/-! ## Concrete inputs used by the closed witness theorems -/

/-- An operation that always fails with a retryable error. -/
def fnFailW : Nat → Nat → AttemptOutcome Nat := fun _ _ => .failure "timeout"

/-- An operation that always fails with another retryable error. -/
def fnFailW2 : Nat → Nat → AttemptOutcome Nat :=
  fun _ _ => .failure "service unavailable"

/-- An operation that succeeds on the second attempt of endpoint 1. -/
def fnOkW : Nat → Nat → AttemptOutcome Nat :=
  fun e a => if e == 1 && a == 1 then .success 7 else .failure "timeout"

/-- An operation that fails non-retryably on endpoint 0 and succeeds
elsewhere. -/
def fnNrW : Nat → Nat → AttemptOutcome Nat :=
  fun e _ => if e == 0 then .failure "execution reverted" else .success 5

/-- A concrete subscription. -/
def subW : Subscription := ⟨"0xab", 21600, true, 0, 0⟩

/-- A store with one subscribed chat and empty histories. -/
def dSubW : StoreData := ⟨[(3, subW)], [], []⟩

/-- The empty store. -/
def dEmptyW : StoreData := ⟨[], [], []⟩

/-- A store with one chat subscribed to wallet `0xab`. -/
def dChatW : StoreData := ⟨[(7, ⟨"0xab", 3600, true, 0, 0⟩)], [], []⟩

/-- A delivery collaborator that always throws. -/
def deliverFailW : Nat → String → Except String Unit :=
  fun _ _ => .error "telegram 502"

/-! ## Association list lemmas -/

theorem lookup_updAssoc_self [BEq κ] [LawfulBEq κ] (k : κ) (v : ν)
    (l : List (κ × ν)) : (updAssoc k v l).lookup k = some v := by
  induction l with
  | nil => simp [updAssoc, List.lookup]
  | cons hd tl ih =>
    by_cases h : hd.1 = k
    · simp [updAssoc, h, List.lookup]
    · have hb : (hd.1 == k) = false := beq_eq_false_iff_ne.mpr h
      have hb' : (k == hd.1) = false := beq_eq_false_iff_ne.mpr (Ne.symm h)
      simp [updAssoc, hb, hb', List.lookup, ih]

theorem lookup_updAssoc_ne [BEq κ] [LawfulBEq κ] (k k' : κ) (v : ν)
    (l : List (κ × ν)) (h : k' ≠ k) :
    (updAssoc k v l).lookup k' = l.lookup k' := by
  induction l with
  | nil => simp [updAssoc, List.lookup, beq_eq_false_iff_ne.mpr h]
  | cons hd tl ih =>
    by_cases hh : hd.1 = k
    · simp [updAssoc, hh, List.lookup, beq_eq_false_iff_ne.mpr h]
    · have hb : (hd.1 == k) = false := beq_eq_false_iff_ne.mpr hh
      by_cases hk : k' = hd.1
      · simp [updAssoc, hb, List.lookup, hk]
      · simp [updAssoc, hb, List.lookup, beq_eq_false_iff_ne.mpr hk, ih]

/-! ## Claim C5 -/

/-- C5: each domain query of the ledger service absorbs an ultimate failure
of the resilient client into a conservative default and never raises:
`getRequestsByOwner` returns the empty list, `canClaimRequest` returns
`false`, and `getRequestInfo` returns `null` whenever the underlying
resilient call fails. -/
theorem ledger_queries_absorb_failure (err : String) :
    getRequestsByOwner (Except.error err) = [] ∧
    canClaimRequest (Except.error err) = false ∧
    getRequestInfo (Except.error err) = none :=
  ⟨rfl, rfl, rfl⟩

/-! ## Claim C6 -/

/-- C6: `isRequestInactive` reports inactive exactly when the fetched detail
is `null` or the requester equals the zero-address sentinel; and a failed
fetch is indistinguishable from a claimed (sentinel-requester) request. -/
theorem isRequestInactive_iff (call : Except String RawRequestInfo) :
    (isRequestInactive call = true ↔
      getRequestInfo call = none ∨
        ∃ info, getRequestInfo call = some info ∧ info.requester = ZeroAddress) ∧
    (∀ (err : String) (r : RawRequestInfo), r.requester = ZeroAddress →
      isRequestInactive (Except.error err) = isRequestInactive (Except.ok r)) := by
  constructor
  · cases call with
    | error e => simp [isRequestInactive, getRequestInfo]
    | ok r => simp [isRequestInactive, getRequestInfo]
  · intro err r h
    simp [isRequestInactive, getRequestInfo, h]

/-- Closed witness for C6 at a concrete failed fetch and a concrete claimed
request. -/
theorem isRequestInactive_iff_witness :
    isRequestInactive (Except.error "network down") =
      isRequestInactive (Except.ok ⟨ZeroAddress, 0, 0, 0, 0, 0, 0⟩) :=
  (isRequestInactive_iff (Except.error "network down")).2 "network down"
    ⟨ZeroAddress, 0, 0, 0, 0, 0, 0⟩ rfl

/-! ## Claim C9 -/

/-- C9: the scheduling delay computation is evaluated at the failing input
`:15:30.000`, where it returns the negative value `-30000` (landing on the
already-past boundary `:15:00` instead of the next one, `:30:00`), refuting
non-negativity; at the spec's example `:07:42.000` it does return `438000`,
which lands exactly on `:15:00`. -/
theorem calculateDelay_negative_at_aligned_minute :
    calculateDelayToNextAlignedTime 15 30 0 = -30000 ∧
    calculateDelayToNextAlignedTime 15 30 0 < 0 ∧
    calculateDelayToNextAlignedTime 7 42 0 = 438000 ∧
    ((7 * 60 + 42) * 1000 : Int) + calculateDelayToNextAlignedTime 7 42 0 =
      15 * 60 * 1000 := by
  refine ⟨by decide, by decide, by decide, by decide⟩

/-! ## Claim C7 -/

/-- C7: for a subscribed chat (with a positive configured frequency),
`shouldNotify` is true when no record exists for the pair, false immediately
after `recordNotification`, and thereafter true exactly when the elapsed
time since the recorded `lastNotifiedAt` reaches the chat's frequency. -/
theorem shouldNotify_dedup (d : StoreData) (now chatId : Nat) (rid : String)
    (sub : Subscription) (hsub : d.subscriptions.lookup chatId = some sub)
    (hf : 0 < sub.frequencySeconds) :
    (d.notificationHistory.lookup (historyKey chatId rid) = none →
      shouldNotify d now chatId rid = true) ∧
    shouldNotify (recordNotification d now chatId rid) now chatId rid = false ∧
    (∀ t, now ≤ t →
      (shouldNotify (recordNotification d now chatId rid) t chatId rid = true ↔
        sub.frequencySeconds * 1000 ≤ t - now)) := by
  have hrec : ∃ r, (recordNotification d now chatId rid).notificationHistory.lookup
      (historyKey chatId rid) = some r ∧ r.lastNotifiedAt = now := by
    unfold recordNotification
    cases hl : d.notificationHistory.lookup (historyKey chatId rid) with
    | some ex =>
      exact ⟨{ ex with lastNotifiedAt := now }, by simp [hl, lookup_updAssoc_self], rfl⟩
    | none =>
      exact ⟨⟨now, now⟩, by simp [hl, lookup_updAssoc_self], rfl⟩
  have hsubs : (recordNotification d now chatId rid).subscriptions =
      d.subscriptions := by
    unfold recordNotification
    cases hl : d.notificationHistory.lookup (historyKey chatId rid) <;> simp [hl]
  obtain ⟨r, hr, hrnow⟩ := hrec
  refine ⟨?_, ?_, ?_⟩
  · intro h
    simp [shouldNotify, hsub, h]
  · simp only [shouldNotify, hsubs, hsub, hr, hrnow, Nat.sub_self]
    simp only [decide_eq_false_iff_not]
    omega
  · intro t ht
    simp only [shouldNotify, hsubs, hsub, hr, hrnow]
    simp [decide_eq_true_iff]

/-- Closed witness for C7 at a concrete store, chat and request. -/
theorem shouldNotify_dedup_witness :
    dSubW.subscriptions.lookup 3 = some subW ∧ 0 < subW.frequencySeconds ∧
    ((dSubW.notificationHistory.lookup (historyKey 3 "9") = none →
        shouldNotify dSubW 1000 3 "9" = true) ∧
      shouldNotify (recordNotification dSubW 1000 3 "9") 1000 3 "9" = false ∧
      (∀ t, 1000 ≤ t →
        (shouldNotify (recordNotification dSubW 1000 3 "9") t 3 "9" = true ↔
          subW.frequencySeconds * 1000 ≤ t - 1000))) :=
  ⟨rfl, by decide, shouldNotify_dedup dSubW 1000 3 "9" subW rfl (by decide)⟩

/-! ## Claim C8 -/

/-- C8: starting with no completion status, feeding active counts
`3, 0, 0, 3, 0` through the completion pathway (`shouldSendCompletion` each
cycle, `markCompletionSent` on every `true`) yields the decisions
`false, true, false, false, true`: the completion message is sent exactly
twice, once per distinct zero-count episode, and never on the repeated zero
cycle inside the first episode. -/
theorem completion_dedup (d : StoreData) (now chatId : Nat)
    (h : d.completionStatus.lookup chatId = none) :
    (runCompletionCycles now chatId d [3, 0, 0, 3, 0]).2 =
      [false, true, false, false, true] := by
  simp [runCompletionCycles, completionCycle, shouldSendCompletion,
        markCompletionSent, h, lookup_updAssoc_self]

/-- Closed witness for C8 starting from the empty store. -/
theorem completion_dedup_witness :
    dEmptyW.completionStatus.lookup 1 = none ∧
    (runCompletionCycles 0 1 dEmptyW [3, 0, 0, 3, 0]).2 =
      [false, true, false, false, true] :=
  ⟨rfl, completion_dedup dEmptyW 0 1 rfl⟩

/-! ## Lemmas about the inner retry loop -/

theorem attemptLoop_succ (fn : Nat → Nat → AttemptOutcome α) (M mx e l a d : Nat)
    (le : Option String) :
    attemptLoop fn M mx e (l + 1) a d le =
      match fn e a with
      | .success v => (d, le, [.call e a], some v)
      | .failure msg =>
        if isNonRetryableError msg then
          (d, some msg, [.call e a], none)
        else if a < M - 1 then
          let r := attemptLoop fn M mx e l (a + 1) (min (d * 2) mx) (some msg)
          (r.1, r.2.1, .call e a :: .sleep e d :: r.2.2.1, r.2.2.2)
        else
          let r := attemptLoop fn M mx e l (a + 1) d (some msg)
          (r.1, r.2.1, .call e a :: r.2.2.1, r.2.2.2) := rfl

theorem attemptLoop_allFail (fn : Nat → Nat → AttemptOutcome α) (M mx e : Nat)
    (m : Nat → String) (hf : ∀ a, fn e a = .failure (m a))
    (hr : ∀ a, isNonRetryableError (m a) = false) :
    ∀ left a d le, 1 ≤ left →
      ∃ d' tr, attemptLoop fn M mx e left a d le =
        (d', some (m (a + left - 1)), tr, none) ∧ countCalls tr = left := by
  intro left
  induction left with
  | zero => intro a d le h; omega
  | succ l ih =>
    intro a d le _
    cases l with
    | zero =>
      by_cases hA : a < M - 1
      · refine ⟨min (d * 2) mx, [.call e a, .sleep e d], ?_, by simp [countCalls]⟩
        rw [attemptLoop_succ, hf a]
        simp [hr a, hA, attemptLoop]
      · refine ⟨d, [.call e a], ?_, by simp [countCalls]⟩
        rw [attemptLoop_succ, hf a]
        simp [hr a, hA, attemptLoop]
    | succ k =>
      by_cases hA : a < M - 1
      · obtain ⟨d', tr, heq, hcnt⟩ :=
          ih (a + 1) (min (d * 2) mx) (some (m a)) (by omega)
        have hidx : a + 1 + (k + 1) - 1 = a + (k + 1 + 1) - 1 := by omega
        rw [hidx] at heq
        refine ⟨d', .call e a :: .sleep e d :: tr, ?_, ?_⟩
        · rw [attemptLoop_succ, hf a]
          simp only [hr a, Bool.false_eq_true, if_false, if_pos hA, heq]
        · simp [countCalls, List.countP_cons] at hcnt ⊢
          omega
      · obtain ⟨d', tr, heq, hcnt⟩ := ih (a + 1) d (some (m a)) (by omega)
        have hidx : a + 1 + (k + 1) - 1 = a + (k + 1 + 1) - 1 := by omega
        rw [hidx] at heq
        refine ⟨d', .call e a :: tr, ?_, ?_⟩
        · rw [attemptLoop_succ, hf a]
          simp only [hr a, Bool.false_eq_true, if_false, if_neg hA, heq]
        · simp [countCalls, List.countP_cons] at hcnt ⊢
          omega

theorem findSomeAppend {α β : Type} {f : α → Option β} {l₁ : List α}
    (l₂ : List α) {b : β} (h : l₁.findSome? f = some b) :
    (l₁ ++ l₂).findSome? f = some b := by
  induction l₁ with
  | nil => simp [List.findSome?] at h
  | cons x xs ih =>
    rw [List.cons_append]
    rw [List.findSome?_cons] at h ⊢
    cases hfx : f x with
    | some y => rw [hfx] at h; simpa [hfx] using h
    | none => rw [hfx] at h; simpa [hfx] using ih h

theorem lastCallE_append_right {tr₂ : List Event} (tr₁ : List Event) {e : Nat}
    (h : lastCallE tr₂ = some e) : lastCallE (tr₁ ++ tr₂) = some e := by
  unfold lastCallE at h ⊢
  rw [List.reverse_append]
  exact findSomeAppend _ h

theorem attemptLoop_events (fn : Nat → Nat → AttemptOutcome α) (M mx e : Nat) :
    ∀ left a d le ev, ev ∈ (attemptLoop fn M mx e left a d le).2.2.1 →
      (∃ a', ev = .call e a') ∨ ∃ ms, ev = .sleep e ms := by
  intro left
  induction left with
  | zero => intro a d le ev h; simp [attemptLoop] at h
  | succ l ih =>
    intro a d le ev h
    rw [attemptLoop_succ] at h
    cases hfa : fn e a with
    | success v =>
      rw [hfa] at h
      simp only [List.mem_singleton] at h
      exact .inl ⟨a, h⟩
    | failure msg =>
      rw [hfa] at h
      by_cases hnr : isNonRetryableError msg = true
      · simp only [hnr, if_true, List.mem_singleton] at h
        exact .inl ⟨a, h⟩
      · by_cases hA : a < M - 1
        · simp only [hnr, Bool.false_eq_true, if_false, if_pos hA,
            List.mem_cons] at h
          rcases h with rfl | rfl | hmem
          · exact .inl ⟨a, rfl⟩
          · exact .inr ⟨d, rfl⟩
          · exact ih _ _ _ _ hmem
        · simp only [hnr, Bool.false_eq_true, if_false, if_neg hA,
            List.mem_cons] at h
          rcases h with rfl | hmem
          · exact .inl ⟨a, rfl⟩
          · exact ih _ _ _ _ hmem

theorem attemptLoop_lastCall (fn : Nat → Nat → AttemptOutcome α) (M mx e : Nat) :
    ∀ left a d le v, (attemptLoop fn M mx e left a d le).2.2.2 = some v →
      lastCallE (attemptLoop fn M mx e left a d le).2.2.1 = some e := by
  intro left
  induction left with
  | zero => intro a d le v h; simp [attemptLoop] at h
  | succ l ih =>
    intro a d le v h
    rw [attemptLoop_succ] at h ⊢
    cases hfa : fn e a with
    | success w =>
      simp [lastCallE, List.findSome?, callEndpoint]
    | failure msg =>
      rw [hfa] at h
      by_cases hnr : isNonRetryableError msg = true
      · simp [hnr] at h
      · by_cases hA : a < M - 1
        · simp only [hnr, Bool.false_eq_true, if_false, if_pos hA] at h ⊢
          have := ih (a + 1) (min (d * 2) mx) (some msg) v h
          exact lastCallE_append_right [.call e a, .sleep e d] this
        · simp only [hnr, Bool.false_eq_true, if_false, if_neg hA] at h ⊢
          have := ih (a + 1) d (some msg) v h
          exact lastCallE_append_right [.call e a] this

theorem attemptLoop_head (fn : Nat → Nat → AttemptOutcome α) (M mx e : Nat)
    (l a d : Nat) (le : Option String) (hl : 1 ≤ l) :
    (attemptLoop fn M mx e l a d le).2.2.1.head? = some (.call e a) := by
  obtain ⟨t, rfl⟩ : ∃ t, l = t + 1 := ⟨l - 1, by omega⟩
  rw [attemptLoop_succ]
  cases hfa : fn e a with
  | success v => simp
  | failure msg =>
    by_cases hnr : isNonRetryableError msg = true
    · simp [hnr]
    · by_cases hA : a < M - 1
      · simp [hnr, hA]
      · simp [hnr, hA]

theorem attemptLoop_nonRetryableHit (fn : Nat → Nat → AttemptOutcome α)
    (M mx e l a d : Nat) (le : Option String) (msg : String) (hl : 1 ≤ l)
    (hf : fn e a = .failure msg) (hnr : isNonRetryableError msg = true) :
    attemptLoop fn M mx e l a d le = (d, some msg, [.call e a], none) := by
  obtain ⟨t, rfl⟩ : ∃ t, l = t + 1 := ⟨l - 1, by omega⟩
  rw [attemptLoop_succ, hf]
  simp [hnr]

theorem min_mul_min (c x m : Nat) (hc : 1 ≤ c) :
    min (c * min x m) m = min (c * x) m := by
  rcases le_total x m with h | h
  · rw [min_eq_left h]
  · rw [min_eq_right h]
    have h1 : m ≤ c * m := Nat.le_mul_of_pos_left m hc
    have h2 : m ≤ c * x := le_trans h (Nat.le_mul_of_pos_left x hc)
    rw [min_eq_right h1, min_eq_right h2]

theorem backoffPattern_cons (d mx k : Nat) (hd : d ≤ mx) :
    d :: ((List.range k).map fun i => min (2 ^ i * min (d * 2) mx) mx) =
      (List.range (k + 1)).map fun i => min (2 ^ i * d) mx := by
  rw [List.range_succ_eq_map, List.map_cons, List.map_map]
  congr 1
  · simp [min_eq_left hd]
  · apply List.map_congr_left
    intro i _
    show min (2 ^ i * min (d * 2) mx) mx = min (2 ^ (i + 1) * d) mx
    rw [min_mul_min _ _ _ (Nat.one_le_two_pow), pow_succ]
    ring_nf

theorem sleepsOn_nil (e : Nat) : sleepsOn e [] = [] := rfl

theorem sleepsOn_cons_call (e e' a : Nat) (tr : List Event) :
    sleepsOn e (.call e' a :: tr) = sleepsOn e tr := rfl

theorem sleepsOn_cons_rotate (e t : Nat) (tr : List Event) :
    sleepsOn e (.rotate t :: tr) = sleepsOn e tr := rfl

theorem sleepsOn_cons_reset (e : Nat) (tr : List Event) :
    sleepsOn e (.reset :: tr) = sleepsOn e tr := rfl

theorem sleepsOn_cons_sleep_self (e ms : Nat) (tr : List Event) :
    sleepsOn e (.sleep e ms :: tr) = ms :: sleepsOn e tr := by
  simp [sleepsOn, List.filterMap_cons]

theorem sleepsOn_cons_sleep_ne (e e' ms : Nat) (h : e' ≠ e) (tr : List Event) :
    sleepsOn e (.sleep e' ms :: tr) = sleepsOn e tr := by
  simp [sleepsOn, List.filterMap_cons, h]

theorem sleepsOn_append (e : Nat) (t₁ t₂ : List Event) :
    sleepsOn e (t₁ ++ t₂) = sleepsOn e t₁ ++ sleepsOn e t₂ := by
  simp [sleepsOn, List.filterMap_append]

theorem attemptLoop_sleepsOn (fn : Nat → Nat → AttemptOutcome α) (M mx e : Nat) :
    ∀ left a d le, d ≤ mx →
      (∀ e', e' ≠ e →
        sleepsOn e' (attemptLoop fn M mx e left a d le).2.2.1 = []) ∧
      ∃ k, sleepsOn e (attemptLoop fn M mx e left a d le).2.2.1 =
        (List.range k).map fun i => min (2 ^ i * d) mx := by
  intro left
  induction left with
  | zero =>
    intro a d le hd
    exact ⟨fun e' _ => by simp [attemptLoop, sleepsOn_nil],
      ⟨0, by simp [attemptLoop, sleepsOn_nil]⟩⟩
  | succ l ih =>
    intro a d le hd
    rw [attemptLoop_succ]
    cases hfa : fn e a with
    | success v =>
      exact ⟨fun e' _ => by simp [sleepsOn_cons_call, sleepsOn_nil],
        ⟨0, by simp [sleepsOn_cons_call, sleepsOn_nil]⟩⟩
    | failure msg =>
      by_cases hnr : isNonRetryableError msg = true
      · simp only [hnr, if_true]
        exact ⟨fun e' _ => by simp [sleepsOn_cons_call, sleepsOn_nil],
          ⟨0, by simp [sleepsOn_cons_call, sleepsOn_nil]⟩⟩
      · by_cases hA : a < M - 1
        · simp only [hnr, Bool.false_eq_true, if_false, if_pos hA]
          have hd2 : min (d * 2) mx ≤ mx := min_le_right _ _
          obtain ⟨h1, k, hk⟩ := ih (a + 1) (min (d * 2) mx) (some msg) hd2
          refine ⟨fun e' he' => ?_, ⟨k + 1, ?_⟩⟩
          · rw [sleepsOn_cons_call, sleepsOn_cons_sleep_ne e' e d (Ne.symm he')]
            exact h1 e' he'
          · rw [sleepsOn_cons_call, sleepsOn_cons_sleep_self, hk]
            exact backoffPattern_cons d mx k hd
        · simp only [hnr, Bool.false_eq_true, if_false, if_neg hA]
          obtain ⟨h1, k, hk⟩ := ih (a + 1) d (some msg) hd
          refine ⟨fun e' he' => ?_, ⟨k, ?_⟩⟩
          · rw [sleepsOn_cons_call]
            exact h1 e' he'
          · rw [sleepsOn_cons_call]
            exact hk

/-! ## Lemmas about the outer provider loop -/

theorem providerLoop_succ (fn : Nat → Nat → AttemptOutcome α) (n M b mx r c d : Nat)
    (le : Option String) :
    providerLoop fn n M b mx (r + 1) c d le =
      let t := attemptLoop fn M mx c M 0 d le
      match t.2.2.2 with
      | some v =>
        if c ≠ 0 then (0, t.2.1, t.2.2.1 ++ [.reset], some v)
        else (c, t.2.1, t.2.2.1, some v)
      | none =>
        if r > 0 then
          let c' := switchToNextProvider c n
          let rest := providerLoop fn n M b mx r c' b t.2.1
          (rest.1, rest.2.1, t.2.2.1 ++ .rotate c' :: rest.2.2.1, rest.2.2.2)
        else (c, t.2.1, t.2.2.1, none) := rfl

theorem countCalls_nil : countCalls [] = 0 := rfl

theorem countCalls_append (t₁ t₂ : List Event) :
    countCalls (t₁ ++ t₂) = countCalls t₁ + countCalls t₂ := by
  simp [countCalls, List.countP_append]

theorem countCalls_cons_rotate (t : Nat) (tr : List Event) :
    countCalls (.rotate t :: tr) = countCalls tr := by
  simp [countCalls, List.countP_cons]

theorem providerLoop_allFail (fn : Nat → Nat → AttemptOutcome α)
    (n M b mx : Nat) (m : Nat → Nat → String)
    (hf : ∀ e a, fn e a = .failure (m e a))
    (hr : ∀ e a, isNonRetryableError (m e a) = false) (hM : 1 ≤ M) :
    ∀ r c d le, c < n →
      ∃ cf tr, providerLoop fn n M b mx (r + 1) c d le =
        (cf, some (m ((c + r) % n) (M - 1)), tr, none) ∧
        countCalls tr = (r + 1) * M := by
  intro r
  induction r with
  | zero =>
    intro c d le hc
    obtain ⟨d₁, tr₁, heq, hcnt⟩ :=
      attemptLoop_allFail fn M mx c (m c) (hf c) (hr c) M 0 d le hM
    refine ⟨c, tr₁, ?_, by simpa using hcnt⟩
    rw [providerLoop_succ]
    simp only [heq]
    simp [Nat.mod_eq_of_lt hc]
  | succ k ih =>
    intro c d le hc
    have hn : 0 < n := lt_of_le_of_lt (Nat.zero_le c) hc
    obtain ⟨d₁, tr₁, heq, hcnt₁⟩ :=
      attemptLoop_allFail fn M mx c (m c) (hf c) (hr c) M 0 d le hM
    have hc' : (c + 1) % n < n := Nat.mod_lt _ hn
    obtain ⟨cf, tr₂, heq₂, hcnt₂⟩ :=
      ih ((c + 1) % n) b (some (m c (0 + M - 1))) hc'
    have hidx : ((c + 1) % n + k) % n = (c + (k + 1)) % n := by
      rw [Nat.mod_add_mod]
      congr 1
      omega
    rw [hidx] at heq₂
    refine ⟨cf, tr₁ ++ .rotate ((c + 1) % n) :: tr₂, ?_, ?_⟩
    · rw [providerLoop_succ]
      simp only [heq, switchToNextProvider]
      rw [heq₂]  -- may need adjustment
      simp
    · rw [countCalls_append, countCalls_cons_rotate, hcnt₁, hcnt₂]
      have hsm : (k + 1 + 1) * M = (k + 1) * M + M := Nat.succ_mul _ _
      omega

/-! ## Claim C1 -/

/-- C1: for a pool of `n ≥ 1` endpoints and `M ≥ 1` attempts per endpoint,
an operation failing with a retryable error on every invocation is invoked
exactly `n * M` times, and `executeWithRetry` then fails with the aggregate
error embedding the endpoint count and the last observed failure (the
message of the final attempt on the final endpoint). -/
theorem executeWithRetry_allFail (fn : Nat → Nat → AttemptOutcome α)
    (n M b mx : Nat) (m : Nat → Nat → String) (hn : 1 ≤ n) (hM : 1 ≤ M)
    (hf : ∀ e a, fn e a = .failure (m e a))
    (hr : ∀ e a, isNonRetryableError (m e a) = false) :
    countCalls (executeWithRetry fn n M b mx 0).2.1 = n * M ∧
    (executeWithRetry fn n M b mx 0).2.2 =
      .exhausted n (some (m (n - 1) (M - 1))) := by
  obtain ⟨r, rfl⟩ : ∃ r, n = r + 1 := ⟨n - 1, by omega⟩
  obtain ⟨cf, tr, heq, hcnt⟩ :=
    providerLoop_allFail fn (r + 1) M b mx m hf hr hM r 0 b none (by omega)
  have hidx : (0 + r) % (r + 1) = r + 1 - 1 := by
    simp [Nat.mod_eq_of_lt]
  rw [hidx] at heq
  unfold executeWithRetry
  rw [heq]
  exact ⟨hcnt, rfl⟩

/-- Closed witness for C1 with two endpoints, three attempts each, and an
operation that always times out. -/
theorem executeWithRetry_allFail_witness :
    countCalls (executeWithRetry fnFailW 2 3 100 300 0).2.1 = 2 * 3 ∧
    (executeWithRetry fnFailW 2 3 100 300 0).2.2 =
      .exhausted 2 (some "timeout") :=
  executeWithRetry_allFail fnFailW 2 3 100 300 (fun _ _ => "timeout")
    (by decide) (by decide) (fun _ _ => rfl)
    (fun _ _ => show isNonRetryableError "timeout" = false by decide)

theorem providerLoop_sleepsOn (fn : Nat → Nat → AttemptOutcome α)
    (n M b mx : Nat) (hb : b ≤ mx) :
    ∀ r c d le, c + r ≤ n → d ≤ mx →
      (∀ e, ¬(c ≤ e ∧ e < c + r) →
        sleepsOn e (providerLoop fn n M b mx r c d le).2.2.1 = []) ∧
      (∀ e, c ≤ e → e < c + r →
        ∃ k, sleepsOn e (providerLoop fn n M b mx r c d le).2.2.1 =
          (List.range k).map fun i =>
            min (2 ^ i * (if e = c then d else b)) mx) := by
  intro r
  induction r with
  | zero =>
    intro c d le _ _
    exact ⟨fun e _ => by simp [providerLoop, sleepsOn_nil],
      fun e h1 h2 => by omega⟩
  | succ k ih =>
    intro c d le hcr hd
    obtain ⟨hA1, kk, hA2⟩ := attemptLoop_sleepsOn fn M mx c M 0 d le hd
    cases hres : (attemptLoop fn M mx c M 0 d le).2.2.2 with
    | some v =>
      have htr : (fun e => sleepsOn e (providerLoop fn n M b mx (k + 1) c d le).2.2.1) =
          (fun e => sleepsOn e (attemptLoop fn M mx c M 0 d le).2.2.1) := by
        funext e
        rw [providerLoop_succ]
        by_cases hc0 : c ≠ 0
        · simp [hres, hc0, sleepsOn_append, sleepsOn_cons_reset, sleepsOn_nil]
        · simp [hres, hc0]
      constructor
      · intro e he
        rw [congrFun htr e]
        exact hA1 e (by omega)
      · intro e h1 h2
        rw [congrFun htr e]
        by_cases hec : e = c
        · subst hec
          exact ⟨kk, by simpa using hA2⟩
        · exact ⟨0, by simpa using hA1 e hec⟩
    | none =>
      by_cases hk : k > 0
      · have hlt : c + 1 < n := by omega
        have htr : (providerLoop fn n M b mx (k + 1) c d le).2.2.1 =
            (attemptLoop fn M mx c M 0 d le).2.2.1 ++
              .rotate (c + 1) ::
                (providerLoop fn n M b mx k (c + 1) b
                  (attemptLoop fn M mx c M 0 d le).2.1).2.2.1 := by
          rw [providerLoop_succ]
          simp [hres, hk, switchToNextProvider, Nat.mod_eq_of_lt hlt]
        obtain ⟨ihOut, ihIn⟩ :=
          ih (c + 1) b ((attemptLoop fn M mx c M 0 d le).2.1) (by omega) hb
        rw [htr]
        constructor
        · intro e he
          rw [sleepsOn_append, hA1 e (by omega), sleepsOn_cons_rotate,
            ihOut e (by omega)]
          rfl
        · intro e h1 h2
          by_cases hec : e = c
          · subst hec
            refine ⟨kk, ?_⟩
            rw [sleepsOn_append, hA2, sleepsOn_cons_rotate,
              ihOut e (by omega), List.append_nil]
            simp
          · obtain ⟨kk', hkk'⟩ := ihIn e (by omega) (by omega)
            refine ⟨kk', ?_⟩
            rw [sleepsOn_append, hA1 e hec, sleepsOn_cons_rotate, hkk']
            simp only [if_neg hec, List.nil_append]
            by_cases hec1 : e = c + 1 <;> simp [hec1]
      · have htr : (providerLoop fn n M b mx (k + 1) c d le).2.2.1 =
            (attemptLoop fn M mx c M 0 d le).2.2.1 := by
          rw [providerLoop_succ]
          simp [hres, hk]
        rw [htr]
        constructor
        · intro e he
          exact hA1 e (by omega)
        · intro e h1 h2
          have hec : e = c := by omega
          subst hec
          exact ⟨kk, by simpa using hA2⟩

/-! ## Claim C2 -/

/-- C2: when `baseDelay ≤ maxDelay`, the backoff sleeps performed on any
single endpoint within one `executeWithRetry` call form an initial segment of
`baseDelay, min(baseDelay*2, maxDelay), min(baseDelay*4, maxDelay), …` — in
particular the sequence restarts at `baseDelay` on every endpoint the loop
rotates to — and no backoff sleep ever exceeds `maxDelay`. -/
theorem executeWithRetry_backoff (fn : Nat → Nat → AttemptOutcome α)
    (n M b mx : Nat) (hb : b ≤ mx) :
    (∀ e, ∃ k, sleepsOn e (executeWithRetry fn n M b mx 0).2.1 =
      (List.range k).map fun i => min (2 ^ i * b) mx) ∧
    (∀ e ms, Event.sleep e ms ∈ (executeWithRetry fn n M b mx 0).2.1 →
      ms ≤ mx) := by
  have htr : (executeWithRetry fn n M b mx 0).2.1 =
      (providerLoop fn n M b mx n 0 b none).2.2.1 := by
    unfold executeWithRetry
    cases hres : (providerLoop fn n M b mx n 0 b none).2.2.2 <;> simp [hres]
  obtain ⟨hOut, hIn⟩ :=
    providerLoop_sleepsOn fn n M b mx hb n 0 b none (by omega) hb
  constructor
  · intro e
    rw [htr]
    by_cases he : e < n
    · obtain ⟨k, hk⟩ := hIn e (by omega) (by omega)
      refine ⟨k, ?_⟩
      rw [hk]
      simp only [ite_self]
    · exact ⟨0, by simpa using hOut e (by omega)⟩
  · intro e ms hmem
    rw [htr] at hmem
    have hms : ms ∈ sleepsOn e (providerLoop fn n M b mx n 0 b none).2.2.1 :=
      List.mem_filterMap.mpr ⟨.sleep e ms, hmem, by simp⟩
    by_cases he : e < n
    · obtain ⟨k, hk⟩ := hIn e (by omega) (by omega)
      rw [hk] at hms
      simp only [List.mem_map, List.mem_range] at hms
      obtain ⟨i, _, hi⟩ := hms
      rw [← hi]
      exact min_le_right _ _
    · rw [hOut e (by omega)] at hms
      simp at hms

/-- Closed witness for C2 with two endpoints, three attempts, base delay 100
and cap 300. -/
theorem executeWithRetry_backoff_witness :
    100 ≤ 300 ∧
    ((∀ e, ∃ k, sleepsOn e (executeWithRetry fnFailW2 2 3 100 300 0).2.1 =
        (List.range k).map fun i => min (2 ^ i * 100) 300) ∧
      (∀ e ms, Event.sleep e ms ∈ (executeWithRetry fnFailW2 2 3 100 300 0).2.1 →
        ms ≤ 300)) :=
  ⟨by decide, executeWithRetry_backoff fnFailW2 2 3 100 300 (by decide)⟩

theorem attemptLoop_no_rotate (fn : Nat → Nat → AttemptOutcome α)
    (M mx e left a d : Nat) (le : Option String) (t : Nat) :
    Event.rotate t ∉ (attemptLoop fn M mx e left a d le).2.2.1 := by
  intro h
  rcases attemptLoop_events fn M mx e left a d le _ h with ⟨a', ha⟩ | ⟨ms, hm⟩
  · simp at ha
  · simp at hm

theorem attemptLoop_resetCount (fn : Nat → Nat → AttemptOutcome α)
    (M mx e left a d : Nat) (le : Option String) :
    resetCount (attemptLoop fn M mx e left a d le).2.2.1 = 0 := by
  unfold resetCount
  rw [List.countP_eq_zero]
  intro ev hev
  rcases attemptLoop_events fn M mx e left a d le _ hev with ⟨a', rfl⟩ | ⟨ms, rfl⟩
  · simp
  · simp

theorem resetCount_append (t₁ t₂ : List Event) :
    resetCount (t₁ ++ t₂) = resetCount t₁ + resetCount t₂ := by
  simp [resetCount, List.countP_append]

theorem resetCount_cons_rotate (t : Nat) (tr : List Event) :
    resetCount (.rotate t :: tr) = resetCount tr := by
  simp [resetCount, List.countP_cons]

theorem resetCount_single_reset : resetCount [.reset] = 1 := rfl

theorem lastCallE_append_reset (tr : List Event) :
    lastCallE (tr ++ [.reset]) = lastCallE tr := by
  unfold lastCallE
  rw [List.reverse_append]
  simp [List.findSome?_cons, callEndpoint]

theorem providerLoop_cursor (fn : Nat → Nat → AttemptOutcome α)
    (n M b mx : Nat) :
    ∀ r c d le, c < n →
      (providerLoop fn n M b mx r c d le).1 < n ∧
      (∀ t, Event.rotate t ∈ (providerLoop fn n M b mx r c d le).2.2.1 →
        t < n) ∧
      ((providerLoop fn n M b mx r c d le).2.2.2 = none →
        resetCount (providerLoop fn n M b mx r c d le).2.2.1 = 0) ∧
      (∀ v, (providerLoop fn n M b mx r c d le).2.2.2 = some v →
        (providerLoop fn n M b mx r c d le).1 = 0 ∧
        ∃ e, lastCallE (providerLoop fn n M b mx r c d le).2.2.1 = some e ∧
          resetCount (providerLoop fn n M b mx r c d le).2.2.1 =
            (if e = 0 then 0 else 1)) := by
  intro r
  induction r with
  | zero =>
    intro c d le hc
    refine ⟨hc, ?_, ?_, ?_⟩
    · intro t ht; simp [providerLoop] at ht
    · intro _; simp [providerLoop, resetCount]
    · intro v hv; simp [providerLoop] at hv
  | succ k ih =>
    intro c d le hc
    have hn : 0 < n := lt_of_le_of_lt (Nat.zero_le c) hc
    cases hres : (attemptLoop fn M mx c M 0 d le).2.2.2 with
    | some v =>
      by_cases hc0 : c = 0
      · subst hc0
        have hout : providerLoop fn n M b mx (k + 1) 0 d le =
            (0, (attemptLoop fn M mx 0 M 0 d le).2.1,
              (attemptLoop fn M mx 0 M 0 d le).2.2.1, some v) := by
          rw [providerLoop_succ]
          simp [hres]
        rw [hout]
        refine ⟨hc, ?_, ?_, ?_⟩
        · intro t ht
          exact absurd ht (attemptLoop_no_rotate fn M mx 0 M 0 d le t)
        · intro hnone; simp at hnone
        · intro w hw
          refine ⟨rfl, 0, attemptLoop_lastCall fn M mx 0 M 0 d le v hres, ?_⟩
          rw [attemptLoop_resetCount, if_pos rfl]
      · have hout : providerLoop fn n M b mx (k + 1) c d le =
            (0, (attemptLoop fn M mx c M 0 d le).2.1,
              (attemptLoop fn M mx c M 0 d le).2.2.1 ++ [.reset], some v) := by
          rw [providerLoop_succ]
          simp [hres, hc0]
        rw [hout]
        refine ⟨hn, ?_, ?_, ?_⟩
        · intro t ht
          rcases List.mem_append.mp ht with h | h
          · exact absurd h (attemptLoop_no_rotate fn M mx c M 0 d le t)
          · simp at h
        · intro hnone; simp at hnone
        · intro w hw
          refine ⟨rfl, c, ?_, ?_⟩
          · rw [lastCallE_append_reset]
            exact attemptLoop_lastCall fn M mx c M 0 d le v hres
          · rw [resetCount_append, attemptLoop_resetCount,
              resetCount_single_reset, if_neg hc0]
    | none =>
      by_cases hk : k > 0
      · have hc' : (c + 1) % n < n := Nat.mod_lt _ hn
        have hout : providerLoop fn n M b mx (k + 1) c d le =
            ((providerLoop fn n M b mx k ((c + 1) % n) b
                (attemptLoop fn M mx c M 0 d le).2.1).1,
             (providerLoop fn n M b mx k ((c + 1) % n) b
                (attemptLoop fn M mx c M 0 d le).2.1).2.1,
             (attemptLoop fn M mx c M 0 d le).2.2.1 ++
               .rotate ((c + 1) % n) ::
                 (providerLoop fn n M b mx k ((c + 1) % n) b
                   (attemptLoop fn M mx c M 0 d le).2.1).2.2.1,
             (providerLoop fn n M b mx k ((c + 1) % n) b
                (attemptLoop fn M mx c M 0 d le).2.1).2.2.2) := by
          rw [providerLoop_succ]
          simp [hres, hk, switchToNextProvider]
        obtain ⟨ih1, ih2, ih3, ih4⟩ :=
          ih ((c + 1) % n) b ((attemptLoop fn M mx c M 0 d le).2.1) hc'
        rw [hout]
        refine ⟨ih1, ?_, ?_, ?_⟩
        · intro t ht
          rcases List.mem_append.mp ht with h | h
          · exact absurd h (attemptLoop_no_rotate fn M mx c M 0 d le t)
          · rcases List.mem_cons.mp h with h | h
            · simp only [Event.rotate.injEq] at h
              rw [h]
              exact hc'
            · exact ih2 t h
        · intro hnone
          rw [resetCount_append, attemptLoop_resetCount,
            resetCount_cons_rotate, ih3 hnone]
        · intro w hw
          obtain ⟨hcf, e, hlast, hcnt⟩ := ih4 w hw
          refine ⟨hcf, e, ?_, ?_⟩
          · have hsplit : (attemptLoop fn M mx c M 0 d le).2.2.1 ++
                .rotate ((c + 1) % n) ::
                  (providerLoop fn n M b mx k ((c + 1) % n) b
                    (attemptLoop fn M mx c M 0 d le).2.1).2.2.1 =
                ((attemptLoop fn M mx c M 0 d le).2.2.1 ++
                  [.rotate ((c + 1) % n)]) ++
                  (providerLoop fn n M b mx k ((c + 1) % n) b
                    (attemptLoop fn M mx c M 0 d le).2.1).2.2.1 := by
              simp
            rw [hsplit]
            exact lastCallE_append_right _ hlast
          · rw [resetCount_append, attemptLoop_resetCount,
              resetCount_cons_rotate, hcnt, Nat.zero_add]
      · have hout : providerLoop fn n M b mx (k + 1) c d le =
            (c, (attemptLoop fn M mx c M 0 d le).2.1,
              (attemptLoop fn M mx c M 0 d le).2.2.1, none) := by
          rw [providerLoop_succ]
          simp [hres, hk]
        rw [hout]
        refine ⟨hc, ?_, ?_, ?_⟩
        · intro t ht
          exact absurd ht (attemptLoop_no_rotate fn M mx c M 0 d le t)
        · intro _
          exact attemptLoop_resetCount fn M mx c M 0 d le
        · intro w hw; simp at hw

theorem providerLoop_head (fn : Nat → Nat → AttemptOutcome α)
    (n M b mx r c d : Nat) (le : Option String) (hr : 1 ≤ r) (hM : 1 ≤ M) :
    (providerLoop fn n M b mx r c d le).2.2.1.head? = some (.call c 0) := by
  obtain ⟨k, rfl⟩ : ∃ k, r = k + 1 := ⟨r - 1, by omega⟩
  have hhead := attemptLoop_head fn M mx c M 0 d le hM
  cases hΔ : (attemptLoop fn M mx c M 0 d le).2.2.1 with
  | nil => rw [hΔ] at hhead; simp at hhead
  | cons ev tl =>
    rw [hΔ] at hhead
    simp only [List.head?_cons, Option.some.injEq] at hhead
    subst hhead
    cases hres : (attemptLoop fn M mx c M 0 d le).2.2.2 with
    | some v =>
      by_cases hc0 : c ≠ 0
      · have hout : (providerLoop fn n M b mx (k + 1) c d le).2.2.1 =
            (attemptLoop fn M mx c M 0 d le).2.2.1 ++ [.reset] := by
          rw [providerLoop_succ]; simp [hres, hc0]
        rw [hout, hΔ]
        simp
      · have hout : (providerLoop fn n M b mx (k + 1) c d le).2.2.1 =
            (attemptLoop fn M mx c M 0 d le).2.2.1 := by
          rw [providerLoop_succ]; simp [hres, hc0]
        rw [hout, hΔ]
        simp
    | none =>
      by_cases hk : k > 0
      · have hout : (providerLoop fn n M b mx (k + 1) c d le).2.2.1 =
            (attemptLoop fn M mx c M 0 d le).2.2.1 ++
              .rotate (switchToNextProvider c n) ::
                (providerLoop fn n M b mx k (switchToNextProvider c n) b
                  (attemptLoop fn M mx c M 0 d le).2.1).2.2.1 := by
          rw [providerLoop_succ]; simp [hres, hk]
        rw [hout, hΔ]
        simp
      · have hout : (providerLoop fn n M b mx (k + 1) c d le).2.2.1 =
            (attemptLoop fn M mx c M 0 d le).2.2.1 := by
          rw [providerLoop_succ]; simp [hres, hk]
        rw [hout, hΔ]
        simp

/-! ## Claim C3 -/

/-- C3: the endpoint cursor stays a valid index of the pool and rotation is
cyclic (`(active + 1) mod len`, witnessed both by `switchToNextProvider` and
by every rotation target of the trace being in range); every call starts on
the current cursor's endpoint first (so after a success, which leaves the
cursor at 0, a subsequent call tries endpoint 0 first); and when the
operation succeeds the final cursor is 0, with the reset performed exactly
once if the succeeding endpoint was nonzero and not at all otherwise. -/
theorem executeWithRetry_cursor (fn : Nat → Nat → AttemptOutcome α)
    (n M b mx c0 : Nat) (hc : c0 < n) (hM : 1 ≤ M) :
    (executeWithRetry fn n M b mx c0).1 < n ∧
    switchToNextProvider c0 n = (c0 + 1) % n ∧
    (∀ t, Event.rotate t ∈ (executeWithRetry fn n M b mx c0).2.1 → t < n) ∧
    (executeWithRetry fn n M b mx c0).2.1.head? = some (.call c0 0) ∧
    (∀ v, (executeWithRetry fn n M b mx c0).2.2 = .ok v →
      (executeWithRetry fn n M b mx c0).1 = 0 ∧
      ∃ e, lastCallE (executeWithRetry fn n M b mx c0).2.1 = some e ∧
        resetCount (executeWithRetry fn n M b mx c0).2.1 =
          (if e = 0 then 0 else 1)) := by
  have hcur : (executeWithRetry fn n M b mx c0).1 =
      (providerLoop fn n M b mx n c0 b none).1 := by
    unfold executeWithRetry
    cases hres : (providerLoop fn n M b mx n c0 b none).2.2.2 <;> simp [hres]
  have htr : (executeWithRetry fn n M b mx c0).2.1 =
      (providerLoop fn n M b mx n c0 b none).2.2.1 := by
    unfold executeWithRetry
    cases hres : (providerLoop fn n M b mx n c0 b none).2.2.2 <;> simp [hres]
  have hok : ∀ v, (executeWithRetry fn n M b mx c0).2.2 = .ok v →
      (providerLoop fn n M b mx n c0 b none).2.2.2 = some v := by
    intro v hv
    unfold executeWithRetry at hv
    cases hres : (providerLoop fn n M b mx n c0 b none).2.2.2 with
    | some w =>
      simp only [hres, RetryResult.ok.injEq] at hv
      rw [hv]
    | none => simp [hres] at hv
  obtain ⟨L1, L2, L3, L4⟩ := providerLoop_cursor fn n M b mx n c0 b none hc
  refine ⟨by rw [hcur]; exact L1, rfl, ?_, ?_, ?_⟩
  · intro t ht
    rw [htr] at ht
    exact L2 t ht
  · rw [htr]
    exact providerLoop_head fn n M b mx n c0 b none (by omega) hM
  · intro v hv
    obtain ⟨h0, e, hl, hcnt⟩ := L4 v (hok v hv)
    exact ⟨by rw [hcur]; exact h0, e, by rw [htr]; exact hl,
      by rw [htr]; exact hcnt⟩

/-- Closed witness for C3: two endpoints, two attempts, starting from cursor
1; the operation succeeds on endpoint 1, attempt 1. -/
theorem executeWithRetry_cursor_witness :
    1 < 2 ∧ 1 ≤ 2 ∧
    ((executeWithRetry fnOkW 2 2 100 300 1).1 < 2 ∧
      switchToNextProvider 1 2 = (1 + 1) % 2 ∧
      (∀ t, Event.rotate t ∈ (executeWithRetry fnOkW 2 2 100 300 1).2.1 →
        t < 2) ∧
      (executeWithRetry fnOkW 2 2 100 300 1).2.1.head? =
        some (.call 1 0) ∧
      (∀ v, (executeWithRetry fnOkW 2 2 100 300 1).2.2 = .ok v →
        (executeWithRetry fnOkW 2 2 100 300 1).1 = 0 ∧
        ∃ e, lastCallE (executeWithRetry fnOkW 2 2 100 300 1).2.1 = some e ∧
          resetCount (executeWithRetry fnOkW 2 2 100 300 1).2.1 =
            (if e = 0 then 0 else 1))) :=
  ⟨by decide, by decide, executeWithRetry_cursor fnOkW 2 2 100 300 1
    (by decide) (by decide)⟩

theorem callsOn_cons_call_self (e a : Nat) (tr : List Event) :
    callsOn e (.call e a :: tr) = callsOn e tr + 1 := by
  simp [callsOn, List.countP_cons]

theorem callsOn_cons_rotate (e t : Nat) (tr : List Event) :
    callsOn e (.rotate t :: tr) = callsOn e tr := by
  simp [callsOn, List.countP_cons]

theorem providerLoop_trace_cases (fn : Nat → Nat → AttemptOutcome α)
    (n M b mx k c d : Nat) (le : Option String) :
    (providerLoop fn n M b mx (k + 1) c d le).2.2.1 =
        (attemptLoop fn M mx c M 0 d le).2.2.1 ∨
    (providerLoop fn n M b mx (k + 1) c d le).2.2.1 =
        (attemptLoop fn M mx c M 0 d le).2.2.1 ++ [.reset] ∨
    ((providerLoop fn n M b mx (k + 1) c d le).2.2.1 =
        (attemptLoop fn M mx c M 0 d le).2.2.1 ++
          .rotate ((c + 1) % n) ::
            (providerLoop fn n M b mx k ((c + 1) % n) b
              (attemptLoop fn M mx c M 0 d le).2.1).2.2.1 ∧ 0 < k) := by
  cases hres : (attemptLoop fn M mx c M 0 d le).2.2.2 with
  | some v =>
    by_cases hc0 : c ≠ 0
    · right; left
      rw [providerLoop_succ]; simp [hres, hc0]
    · left
      rw [providerLoop_succ]; simp [hres, hc0]
  | none =>
    by_cases hk : k > 0
    · right; right
      refine ⟨?_, hk⟩
      rw [providerLoop_succ]; simp [hres, hk, switchToNextProvider]
    · left
      rw [providerLoop_succ]; simp [hres, hk]

theorem providerLoop_call_endpoints (fn : Nat → Nat → AttemptOutcome α)
    (n M b mx : Nat) :
    ∀ r c d le, c < n → ∀ ev ∈ (providerLoop fn n M b mx r c d le).2.2.1,
      (∀ e' a', ev = .call e' a' → ∃ j, j < r ∧ e' = (c + j) % n) ∧
      (∀ e' ms, ev = .sleep e' ms → ∃ j, j < r ∧ e' = (c + j) % n) := by
  intro r
  induction r with
  | zero => intro c d le hc ev hev; simp [providerLoop] at hev
  | succ k ih =>
    intro c d le hc ev hev
    have hn : 0 < n := lt_of_le_of_lt (Nat.zero_le c) hc
    have hself : ev ∈ (attemptLoop fn M mx c M 0 d le).2.2.1 →
        (∀ e' a', ev = .call e' a' → ∃ j, j < k + 1 ∧ e' = (c + j) % n) ∧
        (∀ e' ms, ev = .sleep e' ms → ∃ j, j < k + 1 ∧ e' = (c + j) % n) := by
      intro hΔ
      rcases attemptLoop_events fn M mx c M 0 d le ev hΔ with ⟨a', rfl⟩ | ⟨ms, rfl⟩
      · refine ⟨fun e' a'' heq => ?_, fun e' ms heq => by simp at heq⟩
        obtain ⟨rfl, rfl⟩ : c = e' ∧ a' = a'' := by
          simpa [Event.call.injEq] using heq
        exact ⟨0, by omega, by simp [Nat.mod_eq_of_lt hc]⟩
      · refine ⟨fun e' a'' heq => by simp at heq, fun e' ms' heq => ?_⟩
        obtain ⟨rfl, rfl⟩ : c = e' ∧ ms = ms' := by
          simpa [Event.sleep.injEq] using heq
        exact ⟨0, by omega, by simp [Nat.mod_eq_of_lt hc]⟩
    rcases providerLoop_trace_cases fn n M b mx k c d le with h | h | ⟨h, hk⟩
    · rw [h] at hev
      exact hself hev
    · rw [h] at hev
      rcases List.mem_append.mp hev with hΔ | hR
      · exact hself hΔ
      · simp only [List.mem_singleton] at hR
        subst hR
        exact ⟨fun e' a' heq => by simp at heq, fun e' ms heq => by simp at heq⟩
    · rw [h] at hev
      rcases List.mem_append.mp hev with hΔ | hR
      · exact hself hΔ
      · rcases List.mem_cons.mp hR with rfl | htl
        · exact ⟨fun e' a' heq => by simp at heq,
            fun e' ms heq => by simp at heq⟩
        · have hc' : (c + 1) % n < n := Nat.mod_lt _ hn
          obtain ⟨h1, h2⟩ := ih ((c + 1) % n) b
            ((attemptLoop fn M mx c M 0 d le).2.1) hc' ev htl
          refine ⟨fun e' a' heq => ?_, fun e' ms heq => ?_⟩
          · obtain ⟨j, hj, rfl⟩ := h1 e' a' heq
            exact ⟨j + 1, by omega, by rw [Nat.mod_add_mod]; congr 1; omega⟩
          · obtain ⟨j, hj, rfl⟩ := h2 e' ms heq
            exact ⟨j + 1, by omega, by rw [Nat.mod_add_mod]; congr 1; omega⟩

theorem rotated_ne (n e j : Nat) (he : e < n) (hj : j < n - 1) :
    ((e + 1) % n + j) % n ≠ e := by
  rw [Nat.mod_add_mod]
  intro heq
  rcases Nat.lt_or_ge (e + 1 + j) n with h | h
  · rw [Nat.mod_eq_of_lt h] at heq
    omega
  · rw [Nat.mod_eq_sub_mod h, Nat.mod_eq_of_lt (by omega)] at heq
    omega

/-! ## Claim C4 -/

/-- C4: when the first attempt on the current endpoint fails with a
non-retryable error, `executeWithRetry` makes no further attempt and performs
no backoff sleep on that endpoint; when more endpoints remain it still
rotates to the next endpoint and continues the operation there — the
execution and its outcome are exactly those of the remaining rounds started
on the rotated-to endpoint — so a single non-retryable error does not abort
the whole operation. -/
theorem executeWithRetry_nonRetryable (fn : Nat → Nat → AttemptOutcome α)
    (n M b mx e : Nat) (msg : String) (he : e < n) (hM : 1 ≤ M)
    (hf : fn e 0 = .failure msg) (hnr : isNonRetryableError msg = true) :
    callsOn e (executeWithRetry fn n M b mx e).2.1 = 1 ∧
    sleepsOn e (executeWithRetry fn n M b mx e).2.1 = [] ∧
    (2 ≤ n →
      (executeWithRetry fn n M b mx e).2.1 =
        .call e 0 :: .rotate ((e + 1) % n) ::
          (providerLoop fn n M b mx (n - 1) ((e + 1) % n) b
            (some msg)).2.2.1 ∧
      (executeWithRetry fn n M b mx e).1 =
        (providerLoop fn n M b mx (n - 1) ((e + 1) % n) b (some msg)).1 ∧
      (executeWithRetry fn n M b mx e).2.2 =
        (match (providerLoop fn n M b mx (n - 1) ((e + 1) % n) b
            (some msg)).2.2.2 with
         | some v => RetryResult.ok v
         | none => RetryResult.exhausted n
             (providerLoop fn n M b mx (n - 1) ((e + 1) % n) b
               (some msg)).2.1)) := by
  obtain ⟨r, rfl⟩ : ∃ r, n = r + 1 := ⟨n - 1, by omega⟩
  have hA := attemptLoop_nonRetryableHit fn M mx e M 0 b none msg hM hf hnr
  rcases Nat.eq_zero_or_pos r with hr0 | hr1
  · subst hr0
    have he0 : e = 0 := by omega
    subst he0
    have hPL : providerLoop fn 1 M b mx 1 0 b none =
        (0, some msg, [.call 0 0], none) := by
      rw [providerLoop_succ, hA]
      simp
    have hout : executeWithRetry fn 1 M b mx 0 =
        (0, [.call 0 0], .exhausted 1 (some msg)) := by
      unfold executeWithRetry
      rw [hPL]
    rw [hout]
    exact ⟨by simp [callsOn, List.countP_cons, countCalls],
      by simp [sleepsOn_cons_call, sleepsOn_nil], fun h2 => by omega⟩
  · simp only [Nat.add_sub_cancel]
    have hPL : providerLoop fn (r + 1) M b mx (r + 1) e b none =
        ((providerLoop fn (r + 1) M b mx r ((e + 1) % (r + 1)) b
            (some msg)).1,
         (providerLoop fn (r + 1) M b mx r ((e + 1) % (r + 1)) b
            (some msg)).2.1,
         .call e 0 :: .rotate ((e + 1) % (r + 1)) ::
           (providerLoop fn (r + 1) M b mx r ((e + 1) % (r + 1)) b
             (some msg)).2.2.1,
         (providerLoop fn (r + 1) M b mx r ((e + 1) % (r + 1)) b
            (some msg)).2.2.2) := by
      obtain ⟨k, rfl⟩ : ∃ k, r = k + 1 := ⟨r - 1, by omega⟩
      rw [providerLoop_succ, hA]
      simp [switchToNextProvider]
    have hc' : (e + 1) % (r + 1) < r + 1 := Nat.mod_lt _ (by omega)
    have htr : (executeWithRetry fn (r + 1) M b mx e).2.1 =
        .call e 0 :: .rotate ((e + 1) % (r + 1)) ::
          (providerLoop fn (r + 1) M b mx r ((e + 1) % (r + 1)) b
            (some msg)).2.2.1 := by
      unfold executeWithRetry
      rw [hPL]
      cases hres2 : (providerLoop fn (r + 1) M b mx r ((e + 1) % (r + 1)) b
          (some msg)).2.2.2 <;> simp [hres2]
    have hcalls0 : callsOn e (providerLoop fn (r + 1) M b mx r
        ((e + 1) % (r + 1)) b (some msg)).2.2.1 = 0 := by
      unfold callsOn
      rw [List.countP_eq_zero]
      intro ev hev
      have hend := providerLoop_call_endpoints fn (r + 1) M b mx r
        ((e + 1) % (r + 1)) b (some msg) hc' ev hev
      cases ev with
      | call e' a' =>
        obtain ⟨j, hj, rfl⟩ := hend.1 e' a' rfl
        simp only [beq_iff_eq]
        intro hcontra
        exact rotated_ne (r + 1) e j he (by omega) hcontra
      | sleep e' ms => simp
      | rotate t => simp
      | reset => simp
    have hsleep0 : sleepsOn e (providerLoop fn (r + 1) M b mx r
        ((e + 1) % (r + 1)) b (some msg)).2.2.1 = [] := by
      unfold sleepsOn
      rw [List.filterMap_eq_nil_iff]
      intro ev hev
      have hend := providerLoop_call_endpoints fn (r + 1) M b mx r
        ((e + 1) % (r + 1)) b (some msg) hc' ev hev
      cases ev with
      | call e' a' => rfl
      | sleep e' ms =>
        obtain ⟨j, hj, rfl⟩ := hend.2 e' ms rfl
        simp only [ite_eq_right_iff]
        intro hcontra
        exact absurd hcontra (rotated_ne (r + 1) e j he (by omega))
      | rotate t => rfl
      | reset => rfl
    refine ⟨?_, ?_, fun _ => ⟨htr, ?_, ?_⟩⟩
    · rw [htr, callsOn_cons_call_self, callsOn_cons_rotate, hcalls0]
    · rw [htr, sleepsOn_cons_call, sleepsOn_cons_rotate, hsleep0]
    · unfold executeWithRetry
      rw [hPL]
      cases hres2 : (providerLoop fn (r + 1) M b mx r ((e + 1) % (r + 1)) b
          (some msg)).2.2.2 <;> simp [hres2]
    · unfold executeWithRetry
      rw [hPL]
      cases hres2 : (providerLoop fn (r + 1) M b mx r ((e + 1) % (r + 1)) b
          (some msg)).2.2.2 <;> simp [hres2]

/-- Closed witness for C4: two endpoints, three attempts; endpoint 0 fails
with `execution reverted` (non-retryable) and endpoint 1 succeeds. -/
theorem executeWithRetry_nonRetryable_witness :
    0 < 2 ∧ 1 ≤ 3 ∧ fnNrW 0 0 = .failure "execution reverted" ∧
    isNonRetryableError "execution reverted" = true ∧
    (callsOn 0 (executeWithRetry fnNrW 2 3 100 300 0).2.1 = 1 ∧
      sleepsOn 0 (executeWithRetry fnNrW 2 3 100 300 0).2.1 = [] ∧
      (2 ≤ 2 →
        (executeWithRetry fnNrW 2 3 100 300 0).2.1 =
          .call 0 0 :: .rotate ((0 + 1) % 2) ::
            (providerLoop fnNrW 2 3 100 300 (2 - 1) ((0 + 1) % 2) 100
              (some "execution reverted")).2.2.1 ∧
        (executeWithRetry fnNrW 2 3 100 300 0).1 =
          (providerLoop fnNrW 2 3 100 300 (2 - 1) ((0 + 1) % 2) 100
            (some "execution reverted")).1 ∧
        (executeWithRetry fnNrW 2 3 100 300 0).2.2 =
          (match (providerLoop fnNrW 2 3 100 300 (2 - 1) ((0 + 1) % 2) 100
              (some "execution reverted")).2.2.2 with
           | some v => RetryResult.ok v
           | none => RetryResult.exhausted 2
               (providerLoop fnNrW 2 3 100 300 (2 - 1) ((0 + 1) % 2) 100
                 (some "execution reverted")).2.1))) :=
  ⟨by decide, by decide, rfl, by decide,
    executeWithRetry_nonRetryable fnNrW 2 3 100 300 0 "execution reverted"
      (by decide) (by decide) rfl (by decide)⟩

/-! ## Claim C10 -/

theorem recordNotification_lookup_self (d : StoreData) (now chatId : Nat)
    (rid : String) :
    ∃ rec, List.lookup (historyKey chatId rid)
        (recordNotification d now chatId rid).notificationHistory =
          some rec ∧ rec.lastNotifiedAt = now := by
  unfold recordNotification
  cases hl : d.notificationHistory.lookup (historyKey chatId rid) with
  | some ex =>
    exact ⟨{ ex with lastNotifiedAt := now },
      by simp [hl, lookup_updAssoc_self], rfl⟩
  | none => exact ⟨⟨now, now⟩, by simp [hl, lookup_updAssoc_self], rfl⟩

theorem recordNotification_lookup_pres (d : StoreData) (now chatId : Nat)
    (rid' : String) (k : String)
    (h : ∃ rec, List.lookup k d.notificationHistory = some rec ∧
      rec.lastNotifiedAt = now) :
    ∃ rec, List.lookup k
        (recordNotification d now chatId rid').notificationHistory =
          some rec ∧ rec.lastNotifiedAt = now := by
  obtain ⟨rec, hl, hn⟩ := h
  by_cases hk : k = historyKey chatId rid'
  · subst hk
    exact recordNotification_lookup_self d now chatId rid'
  · unfold recordNotification
    cases hl' : d.notificationHistory.lookup (historyKey chatId rid') with
    | some ex =>
      exact ⟨rec, by simp [hl', lookup_updAssoc_ne _ _ _ _ hk, hl], hn⟩
    | none =>
      exact ⟨rec, by simp [hl', lookup_updAssoc_ne _ _ _ _ hk, hl], hn⟩

theorem record_foldl_pres (now chatId : Nat) (k : String) (L : List String) :
    ∀ d : StoreData,
      (∃ rec, List.lookup k d.notificationHistory = some rec ∧
        rec.lastNotifiedAt = now) →
      ∃ rec, List.lookup k
          (L.foldl (fun dd r => recordNotification dd now chatId r)
            d).notificationHistory = some rec ∧ rec.lastNotifiedAt = now := by
  induction L with
  | nil => intro d h; simpa using h
  | cons x xs ih =>
    intro d h
    rw [List.foldl_cons]
    exact ih _ (recordNotification_lookup_pres d now chatId x k h)

theorem record_foldl_lookup (now chatId : Nat) (L : List String) :
    ∀ (d : StoreData) (rid : String), rid ∈ L →
      ∃ rec, List.lookup (historyKey chatId rid)
          (L.foldl (fun dd r => recordNotification dd now chatId r)
            d).notificationHistory = some rec ∧ rec.lastNotifiedAt = now := by
  induction L with
  | nil => intro d rid h; simp at h
  | cons x xs ih =>
    intro d rid h
    rw [List.foldl_cons]
    rcases List.mem_cons.mp h with rfl | hmem
    · exact record_foldl_pres now chatId (historyKey chatId rid) xs _
        (recordNotification_lookup_self d now chatId rid)
    · exact ih _ rid hmem

/-- C10: when delivery of a batched notification throws, `sendNotification`
catches and logs the error instead of propagating it, and
`notifyChatsForWallet` still records a notification (with `lastNotifiedAt`
set to the current time) for every due request id of the chat; the resulting
store is identical to the one produced under successful delivery. -/
theorem notify_records_despite_delivery_failure
    (deliver : Nat → String → Except String Unit) (d : StoreData)
    (now : Nat) (w : String) (claimable active : List String) (c : Nat)
    (err : String) (hc : getChatsForWallet d w = [c])
    (hfail : ∀ ch m, deliver ch m = .error err) :
    (∀ rid ∈ claimable.filter (fun requestId =>
        shouldNotify (cleanupInactiveRequests d c active) now c requestId),
      ∃ rec, List.lookup (historyKey c rid)
          (notifyChatsForWallet deliver d now w claimable
            active).1.notificationHistory = some rec ∧
        rec.lastNotifiedAt = now) ∧
    (claimable.filter (fun requestId =>
        shouldNotify (cleanupInactiveRequests d c active) now c requestId) ≠
          [] →
      (notifyChatsForWallet deliver d now w claimable active).2 =
        [some err]) ∧
    (notifyChatsForWallet deliver d now w claimable active).1 =
      (notifyChatsForWallet (fun _ _ => .ok ()) d now w claimable active).1 := by
  unfold notifyChatsForWallet
  rw [hc]
  simp only [List.foldl_cons, List.foldl_nil]
  by_cases hemp : (claimable.filter (fun requestId =>
      shouldNotify (cleanupInactiveRequests d c active) now c requestId)).isEmpty
  · have hnil : claimable.filter (fun requestId =>
        shouldNotify (cleanupInactiveRequests d c active) now c requestId) =
          [] := List.isEmpty_iff.mp hemp
    refine ⟨fun rid hrid => ?_, fun hne => absurd hnil hne, ?_⟩
    · rw [hnil] at hrid
      simp at hrid
    · simp [hemp]
  · simp only [hemp, Bool.false_eq_true, if_false]
    refine ⟨fun rid hrid => ?_, fun _ => ?_, ?_⟩
    · exact record_foldl_lookup now c _ _ rid hrid
    · simp [sendNotification, hfail]
    · simp

/-- Closed witness for C10: one chat subscribed to the wallet, one due
request, and a delivery collaborator that always throws. -/
theorem notify_records_despite_delivery_failure_witness :
    getChatsForWallet dChatW "0xab" = [7] ∧
    ((∀ rid ∈ (["1"] : List String).filter (fun requestId =>
        shouldNotify (cleanupInactiveRequests dChatW 7 ["1"]) 5000 7
          requestId),
      ∃ rec, List.lookup (historyKey 7 rid)
          (notifyChatsForWallet deliverFailW dChatW 5000 "0xab" ["1"]
            ["1"]).1.notificationHistory = some rec ∧
        rec.lastNotifiedAt = 5000) ∧
    ((["1"] : List String).filter (fun requestId =>
        shouldNotify (cleanupInactiveRequests dChatW 7 ["1"]) 5000 7
          requestId) ≠ [] →
      (notifyChatsForWallet deliverFailW dChatW 5000 "0xab" ["1"] ["1"]).2 =
        [some "telegram 502"]) ∧
    (notifyChatsForWallet deliverFailW dChatW 5000 "0xab" ["1"] ["1"]).1 =
      (notifyChatsForWallet (fun _ _ => .ok ()) dChatW 5000 "0xab" ["1"]
        ["1"]).1) :=
  ⟨rfl, notify_records_despite_delivery_failure deliverFailW dChatW 5000
    "0xab" ["1"] ["1"] 7 "telegram 502" rfl (fun _ _ => rfl)⟩
